import Mathlib

/-
Verification of the procedural mesh-generation core of a small wgpu demo:
vertex interpolation (`Vertex::get_middle`), the box / UV-sphere / geodesic
sphere generators (`Mesh::brick`, `Mesh::sphere`, `Mesh::geo_sphere`) and the
midpoint subdivision operator (`Mesh::subdivide`) from `src/model.rs` /
`src/model/mesh.rs` / `src/model/vertex.rs`.

Modelling layer:
* machine `f32` arithmetic is idealized as exact field arithmetic.  The
  subdivision pipeline only adds and halves, so it is embedded generically
  over any field (instantiated at `ℚ` for the geodesic pre-mesh, where it is
  computable, and at `ℝ` elsewhere); the trigonometric generators and the
  spherical post-process are embedded over `ℝ`.
* `u32` index values are embedded as `ℕ` (every mesh reachable here is far
  below the `u32` range, and no claim is about wrap-around).
* the fallible vertex lookup `self.vertices.get(i).unwrap()` inside
  `subdivide` is embedded in the `Option` monad: `none` is the panic branch.
-/

/-- Mirror of `cgmath::Vector3<f32>` with exact-field components. -/

structure Vec3 (α : Type) where
  x : α
  y : α
  z : α

/-- Mirror of `cgmath::Vector2<f32>` with exact-field components. -/

structure Vec2 (α : Type) where
  x : α
  y : α

instance {α : Type} [Inhabited α] : Inhabited (Vec3 α) := ⟨⟨default, default, default⟩⟩

instance {α : Type} [Inhabited α] : Inhabited (Vec2 α) := ⟨⟨default, default⟩⟩

/-- Componentwise vector addition (`cgmath` `Vector3 + Vector3`). -/

instance {α : Type} [Add α] : Add (Vec3 α) := ⟨fun a b => ⟨a.x + b.x, a.y + b.y, a.z + b.z⟩⟩

/-- Componentwise vector subtraction (`cgmath` `Vector3 - Vector3`). -/

instance {α : Type} [Sub α] : Sub (Vec3 α) := ⟨fun a b => ⟨a.x - b.x, a.y - b.y, a.z - b.z⟩⟩

instance {α : Type} [Add α] : Add (Vec2 α) := ⟨fun a b => ⟨a.x + b.x, a.y + b.y⟩⟩

/-- Vector-by-scalar division (`cgmath` `Vector3 / f32`). -/

instance {α : Type} [Div α] : HDiv (Vec3 α) α (Vec3 α) :=
  ⟨fun v c => ⟨v.x / c, v.y / c, v.z / c⟩⟩

instance {α : Type} [Div α] : HDiv (Vec2 α) α (Vec2 α) := ⟨fun v c => ⟨v.x / c, v.y / c⟩⟩

/-- Vector-by-scalar multiplication (`cgmath` `Vector3 * f32`). -/

instance {α : Type} [Mul α] : HMul (Vec3 α) α (Vec3 α) :=
  ⟨fun v c => ⟨v.x * c, v.y * c, v.z * c⟩⟩

/-- Dot product of two `Vec3`. -/

def dot3 {α : Type} [Add α] [Mul α] (a b : Vec3 α) : α :=
  a.x * b.x + a.y * b.y + a.z * b.z

/-- Cross product of two `Vec3` (used only as a plane-normal witness in
proofs about the icosahedron, not by the embedded code). -/

def cross3 {α : Type} [Sub α] [Mul α] (a b : Vec3 α) : Vec3 α :=
  ⟨a.y * b.z - a.z * b.y, a.z * b.x - a.x * b.z, a.x * b.y - a.y * b.x⟩

/-- Mirror of the `Vertex` record: `position`, `normal`, `tangent`,
`tex_coord`, in the source's field order. -/

structure Vertex (α : Type) where
  position : Vec3 α
  normal : Vec3 α
  tangent : Vec3 α
  tex_coord : Vec2 α

instance {α : Type} [Inhabited α] : Inhabited (Vertex α) :=
  ⟨⟨default, default, default, default⟩⟩

/-- Mirror of `Vertex::get_middle` (the `get_middle!` macro): componentwise
average of every attribute field. -/

def Vertex.get_middle {α : Type} [Field α] (v0 v1 : Vertex α) : Vertex α :=
  { position := (v0.position + v1.position) / (2 : α)
    normal := (v0.normal + v1.normal) / (2 : α)
    tangent := (v0.tangent + v1.tangent) / (2 : α)
    tex_coord := (v0.tex_coord + v1.tex_coord) / (2 : α) }

/-- Mirror of `Mesh { vertices: Vec<Vertex>, indices: Vec<u32> }`. -/

structure Mesh (α : Type) where
  vertices : List (Vertex α)
  indices : List ℕ

/-- The 11-argument `new_vertex!` / `vertex!` macro. -/

def mkVertex {α : Type} (px py pz nx ny nz tx ty tz u v : α) : Vertex α :=
  ⟨⟨px, py, pz⟩, ⟨nx, ny, nz⟩, ⟨tx, ty, tz⟩, ⟨u, v⟩⟩

/-- The 3-argument `new_vertex!` / `vertex!` macro (normal, tangent and
texture coordinate are zeroed). -/

def mkPosVertex {α : Type} [Zero α] (px py pz : α) : Vertex α :=
  ⟨⟨px, py, pz⟩, ⟨0, 0, 0⟩, ⟨0, 0, 0⟩, ⟨0, 0⟩⟩

/-- `self.indices[k]` (always called in bounds by `subdivide`). -/

def idxAt {α : Type} (m : Mesh α) (k : ℕ) : ℕ := m.indices.getD k 0

/-- `self.vertices[v]` (used with in-bounds `v` throughout). -/

def vtxAt {α : Type} [Inhabited α] (m : Mesh α) (v : ℕ) : Vertex α :=
  m.vertices.getD v default

/-- One iteration of the loop body of `Mesh::subdivide` at triangle slot `i`:
reads the (current) index triple, looks the three corner vertices up
(`vertices.get(i).unwrap()` is the `Option.bind`; `none` is the panic),
pushes the three edge midpoints, rewrites the slot to `(v0, m0, m2)` in place
and appends the three new triangles. -/

def subdivideStep {α : Type} [Field α] [Inhabited α] (m : Mesh α) (i : ℕ) :
    Option (Mesh α) :=
  let v0i := idxAt m (3 * i)
  let v1i := idxAt m (3 * i + 1)
  let v2i := idxAt m (3 * i + 2)
  let mi := m.vertices.length
  (m.vertices[v0i]?).bind fun v0 =>
    (m.vertices[v1i]?).bind fun v1 =>
      (m.vertices[v2i]?).map fun v2 =>
        { vertices := m.vertices ++
            [Vertex.get_middle v0 v1, Vertex.get_middle v1 v2, Vertex.get_middle v0 v2]
          indices := ((m.indices.set (3 * i + 1) mi).set (3 * i + 2) (mi + 2)) ++
            [mi, v1i, mi + 1, mi, mi + 1, mi + 2, mi + 2, mi + 1, v2i] }

/-- `for i in start..start+count` driver for the subdivision loop. -/

def subdivideLoop {α : Type} [Field α] [Inhabited α] :
    ℕ → ℕ → Mesh α → Option (Mesh α)
  | 0, _, m => some m
  | c + 1, i, m => (subdivideStep m i).bind (subdivideLoop c (i + 1))

/-- Mirror of `Mesh::subdivide`: the loop bound `num_triangle` is captured
from the index count before the first append, exactly as in the source. -/

def Mesh.subdivide {α : Type} [Field α] [Inhabited α] (m : Mesh α) :
    Option (Mesh α) :=
  subdivideLoop (m.indices.length / 3) 0 m

/-- `for _ in 0..n { mesh.subdivide() }`. -/

def iterSubdivide {α : Type} [Field α] [Inhabited α] :
    ℕ → Mesh α → Option (Mesh α)
  | 0, m => some m
  | n + 1, m => (Mesh.subdivide m).bind (iterSubdivide n)

/- Closed-form description of one `subdivide` pass, proved below to agree
with the loop.  For original triangle slot `j` of a mesh with `V` vertices:
the three appended midpoint vertices, the rewritten in-place index triple
`(v0, m0, m2)`, and the appended index block
`(m0, v1, m1), (m0, m1, m2), (m2, m1, v2)`, with `m0 m1 m2 = V+3j, V+3j+1,
V+3j+2`. -/

/-- Midpoint vertices `m0 = mid(v0,v1)`, `m1 = mid(v1,v2)`, `m2 = mid(v0,v2)`
appended for original triangle slot `j`. -/

def midBlock {α : Type} [Field α] [Inhabited α] (m : Mesh α) (j : ℕ) :
    List (Vertex α) :=
  [Vertex.get_middle (vtxAt m (idxAt m (3 * j))) (vtxAt m (idxAt m (3 * j + 1))),
   Vertex.get_middle (vtxAt m (idxAt m (3 * j + 1))) (vtxAt m (idxAt m (3 * j + 2))),
   Vertex.get_middle (vtxAt m (idxAt m (3 * j))) (vtxAt m (idxAt m (3 * j + 2)))]

/-- The in-place rewritten index triple `(v0, m0, m2)` of slot `j`. -/

def rewBlock {α : Type} (m : Mesh α) (j : ℕ) : List ℕ :=
  [idxAt m (3 * j), m.vertices.length + 3 * j, m.vertices.length + 3 * j + 2]

/-- The appended index triples `(m0, v1, m1), (m0, m1, m2), (m2, m1, v2)` of
slot `j`. -/

def appBlock {α : Type} (m : Mesh α) (j : ℕ) : List ℕ :=
  [m.vertices.length + 3 * j, idxAt m (3 * j + 1), m.vertices.length + 3 * j + 1,
   m.vertices.length + 3 * j, m.vertices.length + 3 * j + 1, m.vertices.length + 3 * j + 2,
   m.vertices.length + 3 * j + 2, m.vertices.length + 3 * j + 1, idxAt m (3 * j + 2)]

/-- The mesh state after the first `i` iterations of the subdivision loop
over original mesh `m`. -/

def stateAt {α : Type} [Field α] [Inhabited α] (m : Mesh α) (i : ℕ) : Mesh α :=
  { vertices := m.vertices ++ (List.range i).flatMap (midBlock m)
    indices := (List.range i).flatMap (rewBlock m) ++ m.indices.drop (3 * i) ++
      (List.range i).flatMap (appBlock m) }

/-- Closed form of a full `subdivide` pass. -/

def subdivideSpec {α : Type} [Field α] [Inhabited α] (m : Mesh α) : Mesh α :=
  stateAt m (m.indices.length / 3)

/-- The §3 invariant: index count is a multiple of three and every index is
in range of the vertex sequence. -/

def MeshInv {α : Type} (m : Mesh α) : Prop :=
  m.indices.length % 3 = 0 ∧ ∀ k ∈ m.indices, k < m.vertices.length

/- ### `Mesh::brick` -/

/-- The 24-vertex, 36-index box of `Mesh::brick`, before its subdivision
loop (`w2 = 0.5*width` and so on, six faces in the source's order). -/

def brickBase {α : Type} [Field α] (width height depth : α) : Mesh α :=
  let w2 := (1 / 2 : α) * width
  let h2 := (1 / 2 : α) * height
  let d2 := (1 / 2 : α) * depth
  { vertices := [
      -- Front face
      mkVertex (-w2) (-h2) (-d2) 0 0 (-1) 1 0 0 0 1,
      mkVertex (-w2) h2 (-d2) 0 0 (-1) 1 0 0 0 0,
      mkVertex w2 h2 (-d2) 0 0 (-1) 1 0 0 1 0,
      mkVertex w2 (-h2) (-d2) 0 0 (-1) 1 0 0 1 1,
      -- Back face
      mkVertex (-w2) (-h2) d2 0 0 1 (-1) 0 0 1 1,
      mkVertex w2 (-h2) d2 0 0 1 (-1) 0 0 0 1,
      mkVertex w2 h2 d2 0 0 1 (-1) 0 0 0 0,
      mkVertex (-w2) h2 d2 0 0 1 (-1) 0 0 1 0,
      -- top face
      mkVertex (-w2) h2 (-d2) 0 1 0 1 0 0 0 1,
      mkVertex (-w2) h2 d2 0 1 0 1 0 0 0 0,
      mkVertex w2 h2 d2 0 1 0 1 0 0 1 0,
      mkVertex w2 h2 (-d2) 0 1 0 1 0 0 1 1,
      -- bottom face
      mkVertex (-w2) (-h2) (-d2) 0 (-1) 0 (-1) 0 0 1 1,
      mkVertex w2 (-h2) (-d2) 0 (-1) 0 (-1) 0 0 0 1,
      mkVertex w2 (-h2) d2 0 (-1) 0 (-1) 0 0 0 0,
      mkVertex (-w2) (-h2) d2 0 (-1) 0 (-1) 0 0 1 0,
      -- left face
      mkVertex (-w2) (-h2) d2 (-1) 0 0 0 0 (-1) 0 1,
      mkVertex (-w2) h2 d2 (-1) 0 0 0 0 (-1) 0 0,
      mkVertex (-w2) h2 (-d2) (-1) 0 0 0 0 (-1) 1 0,
      mkVertex (-w2) (-h2) (-d2) (-1) 0 0 0 0 (-1) 1 1,
      -- right face
      mkVertex w2 (-h2) (-d2) 1 0 0 0 0 1 0 1,
      mkVertex w2 h2 (-d2) 1 0 0 0 0 1 0 0,
      mkVertex w2 h2 d2 1 0 0 0 0 1 1 0,
      mkVertex w2 (-h2) d2 1 0 0 0 0 1 1 1]
    indices := [
      0, 1, 2, 0, 2, 3,
      4, 5, 6, 4, 6, 7,
      8, 9, 10, 8, 10, 11,
      12, 13, 14, 12, 14, 15,
      16, 17, 18, 16, 18, 19,
      20, 21, 22, 20, 22, 23] }

/-- Mirror of `Mesh::brick`: the box, then `subdivision` subdivision passes. -/

def Mesh.brick {α : Type} [Field α] [Inhabited α]
    (width height depth : α) (subdivision : ℕ) : Option (Mesh α) :=
  iterSubdivide subdivision (brickBase width height depth)

/- ### Real-vector helpers (`cgmath` `magnitude` / `normalize`, `f32::atan2`) -/

/-- `cgmath` magnitude: the Euclidean norm. -/

noncomputable def magnitude3 (v : Vec3 ℝ) : ℝ := Real.sqrt (dot3 v v)

/-- `cgmath` `InnerSpace::normalize`: divide by the magnitude. -/

noncomputable def normalize3 (v : Vec3 ℝ) : Vec3 ℝ := v / magnitude3 v

/-- `f32::atan2`: `y.atan2(x)` is the argument of the complex number
`x + y*i`, valued in `(-π, π]`. -/

noncomputable def atan2 (y x : ℝ) : ℝ := Complex.arg ⟨x, y⟩

/- ### `Mesh::sphere` -/

/-- The ring vertex of `Mesh::sphere` at ring index `i` (1-based from the
north pole) and seam-duplicating slot `j` (`0..slice` inclusive).  The bare
`tangent.normalize();` statement in the source discards its result, so only
the `normalize` inside the struct literal matters. -/

noncomputable def sphereRingVertex (radius : ℝ) (slice stack i j : ℕ) : Vertex ℝ :=
  let phi := (i : ℝ) * (Real.pi / (stack : ℝ))
  let theta := (j : ℝ) * (2 * Real.pi / (slice : ℝ))
  let position : Vec3 ℝ :=
    ⟨radius * Real.sin phi * Real.cos theta,
     radius * Real.cos phi,
     radius * Real.sin phi * Real.sin theta⟩
  let tangent : Vec3 ℝ :=
    ⟨-radius * Real.sin phi * Real.sin theta, 0, radius * Real.sin phi * Real.cos theta⟩
  { position := position
    normal := normalize3 position
    tangent := normalize3 tangent
    tex_coord := ⟨theta / (Real.pi * 2), phi / Real.pi⟩ }

/-- Vertex sequence of `Mesh::sphere`: the north pole, `stack - 1` rings of
`slice + 1` vertices, the south pole. -/

noncomputable def sphereVertices (radius : ℝ) (slice stack : ℕ) : List (Vertex ℝ) :=
  mkVertex 0 radius 0 0 1 0 1 0 0 0 0 ::
    ((List.range' 1 (stack - 1)).flatMap fun i =>
      (List.range (slice + 1)).map fun j => sphereRingVertex radius slice stack i j) ++
    [mkVertex 0 (-radius) 0 0 (-1) 0 1 0 0 0 1]

/-- The number of vertices `Mesh::sphere` actually pushes (`1` pole +
`(stack-1)` rings of `slice+1` + `1` pole); proved equal to the vertex-list
length below.  The source's `Vec::with_capacity(slice*(stack-1)+2)` is only a
capacity hint and does not bound the pushes. -/

def sphereVertexCount (slice stack : ℕ) : ℕ := 1 + (stack - 1) * (slice + 1) + 1

/-- Index sequence of `Mesh::sphere`: top cap fan, interior quad strips,
bottom cap fan.  `south_pole_index = vertices.len() - 1` and
`base_index = south_pole_index - slice - 1` as in the source. -/

def sphereIndices (slice stack : ℕ) : List ℕ :=
  ((List.range slice).flatMap fun i => [0, i + 2, i + 1]) ++
  ((List.range (stack - 2)).flatMap fun i =>
    (List.range slice).flatMap fun j =>
      [1 + i * (slice + 1) + j, 1 + i * (slice + 1) + j + 1, 1 + (i + 1) * (slice + 1) + j,
       1 + (i + 1) * (slice + 1) + j, 1 + i * (slice + 1) + j + 1,
       1 + (i + 1) * (slice + 1) + j + 1]) ++
  ((List.range slice).flatMap fun i =>
    [sphereVertexCount slice stack - 1,
     sphereVertexCount slice stack - 1 - slice - 1 + i,
     sphereVertexCount slice stack - 1 - slice - 1 + i + 1])

/-- Mirror of `Mesh::sphere` (no subdivision loop in the source). -/

noncomputable def Mesh.sphere (radius : ℝ) (slice stack : ℕ) : Mesh ℝ :=
  { vertices := sphereVertices radius slice stack
    indices := sphereIndices slice stack }

/- ### `Mesh::geo_sphere` -/

/-- The golden-ratio constant `X = 0.525731f32`, idealized as the exact
decimal fraction the literal denotes. -/

def icoX : ℚ := 525731 / 1000000

/-- The golden-ratio constant `Z = 0.850651f32`. -/

def icoZ : ℚ := 850651 / 1000000

/-- The hard-coded icosahedron `Mesh::geo_sphere` starts from: 12 vertices
built with the 3-argument vertex macro (normal/tangent/texture zeroed) and
the constant 20-face index table.  All data is rational, so the pre-mesh
lives over `ℚ`. -/

def icoMesh : Mesh ℚ :=
  { vertices := [
      mkPosVertex (-icoX) 0 icoZ, mkPosVertex icoX 0 icoZ,
      mkPosVertex (-icoX) 0 (-icoZ), mkPosVertex icoX 0 (-icoZ),
      mkPosVertex 0 icoZ icoX, mkPosVertex 0 icoZ (-icoX),
      mkPosVertex 0 (-icoZ) icoX, mkPosVertex 0 (-icoZ) (-icoX),
      mkPosVertex icoZ icoX 0, mkPosVertex (-icoZ) icoX 0,
      mkPosVertex icoZ (-icoX) 0, mkPosVertex (-icoZ) (-icoX) 0]
    indices := [
      1, 4, 0, 4, 9, 0, 4, 5, 9, 8, 5, 4, 1, 8, 4,
      1, 10, 8, 10, 3, 8, 8, 3, 5, 3, 2, 5, 3, 7, 2,
      3, 10, 7, 10, 6, 7, 6, 11, 7, 6, 0, 11, 6, 1, 0,
      10, 1, 6, 11, 0, 9, 2, 11, 9, 5, 2, 9, 11, 2, 7] }

/-- Componentwise embedding of a rational vector into `ℝ`. -/

def qVec3 (v : Vec3 ℚ) : Vec3 ℝ := ⟨(v.x : ℝ), (v.y : ℝ), (v.z : ℝ)⟩

/-- Componentwise embedding of a rational vertex into `ℝ`.  Subdivision
arithmetic is rational and `ℚ → ℝ` is an exact field embedding, so running
the subdivision passes over `ℚ` and casting afterwards agrees with running
them over `ℝ`. -/

def qVertex (v : Vertex ℚ) : Vertex ℝ :=
  ⟨qVec3 v.position, qVec3 v.normal, qVec3 v.tangent,
   ⟨(v.tex_coord.x : ℝ), (v.tex_coord.y : ℝ)⟩⟩

/-- The per-vertex post-process pass of `Mesh::geo_sphere`:
`normal = normalize(position)`, `position = normal * radius`, then texture
coordinates and tangent from the spherical angles of the *updated* position
(`theta = position.z.atan2(position.x)`, shifted into `[0, 2π)` when
negative; `phi = acos(position.y / radius)`).  The tangent is written
componentwise as `(-radius*sin(phi)*sin(theta), 0, radius*sin(phi)*cos(theta))`
with no normalization. -/

noncomputable def postProcess (radius : ℝ) (v : Vertex ℝ) : Vertex ℝ :=
  let normal := normalize3 v.position
  let position : Vec3 ℝ := normal * radius
  let theta0 := atan2 position.z position.x
  let theta := if theta0 < 0 then theta0 + 2 * Real.pi else theta0
  let phi := Real.arccos (position.y / radius)
  { position := position
    normal := normal
    tangent := ⟨-radius * Real.sin phi * Real.sin theta, 0,
      radius * Real.sin phi * Real.cos theta⟩
    tex_coord := ⟨theta / (2 * Real.pi), phi / Real.pi⟩ }

/-- Mirror of `Mesh::geo_sphere`: the icosahedron, `subdivision` subdivision
passes (run over `ℚ`, where they are exact), then the spherical post-process
over every vertex. -/

noncomputable def Mesh.geo_sphere (radius : ℝ) (subdivision : ℕ) :
    Option (Mesh ℝ) :=
  (iterSubdivide subdivision icoMesh).map fun m =>
    { vertices := m.vertices.map fun v => postProcess radius (qVertex v)
      indices := m.indices }

/- ### Planes through triangles, missing the origin -/

/-- The triangle with vertex ids `(a, b, c)` in `m` lies on a plane that
misses the origin. -/

def OffOriginTri (m : Mesh ℚ) (a b c : ℕ) : Prop :=
  ∃ u : Vec3 ℚ, ∃ d : ℚ, d ≠ 0 ∧
    dot3 (vtxAt m a).position u = d ∧
    dot3 (vtxAt m b).position u = d ∧
    dot3 (vtxAt m c).position u = d

/-- Every triangle of `m` lies on a plane that misses the origin. -/

def PlanarInv (m : Mesh ℚ) : Prop :=
  ∀ j, 3 * j + 2 < m.indices.length →
    OffOriginTri m (idxAt m (3 * j)) (idxAt m (3 * j + 1)) (idxAt m (3 * j + 2))

/-- Invariant carried through the geodesic pre-mesh subdivision: well-formed
indices, planar off-origin triangles, and no vertex at the origin. -/

def GeoInv (m : Mesh ℚ) : Prop :=
  MeshInv m ∧ PlanarInv m ∧ ∀ v ∈ m.vertices, v.position ≠ ⟨0, 0, 0⟩

/- ### Spherical angles of a position (spec vocabulary) and tangents -/

/-- Modelled from the spec: the azimuthal spherical angle `theta` of a
position (the angle `atan2(z, x)` of §4.4). -/

noncomputable def thetaOfPos (p : Vec3 ℝ) : ℝ := atan2 p.z p.x

/-- Modelled from the spec: the polar spherical angle `phi` of a position on
the radius-`r` sphere (`acos(y / r)`). -/

noncomputable def phiOfPos (r : ℝ) (p : Vec3 ℝ) : ℝ := Real.arccos (p.y / r)

/-- Modelled from the spec (§4.3 as referenced by claim C2): the
*normalized* partial derivative of the spherical position with respect to
`theta`, evaluated at the spherical angles of `p`. -/

noncomputable def specTangentNormalized (r : ℝ) (p : Vec3 ℝ) : Vec3 ℝ :=
  normalize3 ⟨-r * Real.sin (phiOfPos r p) * Real.sin (thetaOfPos p), 0,
    r * Real.sin (phiOfPos r p) * Real.cos (thetaOfPos p)⟩

/- ### A concrete `geo_sphere(2, 0)` output and its first vertex -/

/-- The mesh `geo_sphere(2, 0)` evaluates to (icosahedron, zero subdivision
passes, post-processed with radius 2). -/

noncomputable def geoMesh20 : Mesh ℝ :=
  { vertices := icoMesh.vertices.map fun v => postProcess 2 (qVertex v)
    indices := icoMesh.indices }

/-- The first icosahedron vertex, post-processed with radius 2. -/

noncomputable def geoVertex0 : Vertex ℝ := postProcess 2 (qVertex (mkPosVertex (-icoX) 0 icoZ))

/- ### Remaining small helpers -/

attribute [ext] Vec3 Vec2 Vertex

/-- A small, explicitly valid one-triangle mesh used to instantiate the
subdivision theorems at a concrete input. -/

noncomputable def wMesh : Mesh ℝ :=
  { vertices := [mkVertex 0 0 0 0 0 0 0 0 0 0 0, mkVertex 0 0 0 0 0 0 0 0 0 0 0,
      mkVertex 0 0 0 0 0 0 0 0 0 0 0]
    indices := [0, 1, 2] }

/- ### Generic list helpers for fixed-size blocks -/

lemma length_flatMap_const {β : Type} (f : ℕ → List β) (c : ℕ)
    (hc : ∀ j, (f j).length = c) (l : List ℕ) :
    (l.flatMap f).length = c * l.length := by
  induction l with
  | nil => simp
  | cons a t ih =>
    rw [List.flatMap_cons, List.length_append, hc, ih, List.length_cons, Nat.mul_succ]
    omega

lemma flatMap_range'_getD {β : Type} (f : ℕ → List β) (c : ℕ) (d : β)
    (hc : ∀ j, (f j).length = c) :
    ∀ (n s i k : ℕ), i < n → k < c →
      ((List.range' s n).flatMap f).getD (c * i + k) d = (f (s + i)).getD k d := by
  intro n
  induction n with
  | zero => intro s i k hi _; omega
  | succ n ih =>
    intro s i k hi hk
    rw [List.range'_succ, List.flatMap_cons]
    cases i with
    | zero =>
      rw [Nat.mul_zero, Nat.zero_add, List.getD_append _ _ _ _ (by rw [hc]; omega),
        Nat.add_zero]
    | succ i =>
      have hlen : (f s).length ≤ c * (i + 1) + k := by rw [hc, Nat.mul_succ]; omega
      rw [List.getD_append_right _ _ _ _ hlen, hc]
      have hsub : c * (i + 1) + k - c = c * i + k := by rw [Nat.mul_succ]; omega
      rw [hsub, ih (s + 1) i k (by omega) hk]
      have : s + 1 + i = s + (i + 1) := by omega
      rw [this]

lemma flatMap_range_getD {β : Type} (f : ℕ → List β) (c : ℕ) (d : β)
    (hc : ∀ j, (f j).length = c) (n i k : ℕ) (hi : i < n) (hk : k < c) :
    ((List.range n).flatMap f).getD (c * i + k) d = (f i).getD k d := by
  rw [List.range_eq_range']
  have := flatMap_range'_getD f c d hc n 0 i k hi hk
  simpa using this

/- ### Lengths of the per-pass blocks -/

lemma length_flatMap_midBlock {α : Type} [Field α] [Inhabited α]
    (m : Mesh α) (i : ℕ) :
    ((List.range i).flatMap (midBlock m)).length = 3 * i := by
  rw [length_flatMap_const (midBlock m) 3 (fun _ => rfl), List.length_range]

lemma length_flatMap_rewBlock {α : Type} (m : Mesh α) (i : ℕ) :
    ((List.range i).flatMap (rewBlock m)).length = 3 * i := by
  rw [length_flatMap_const (rewBlock m) 3 (fun _ => rfl), List.length_range]

lemma length_flatMap_appBlock {α : Type} (m : Mesh α) (i : ℕ) :
    ((List.range i).flatMap (appBlock m)).length = 9 * i := by
  rw [length_flatMap_const (appBlock m) 9 (fun _ => rfl), List.length_range]

lemma stateAt_vertices_length {α : Type} [Field α] [Inhabited α]
    (m : Mesh α) (i : ℕ) :
    (stateAt m i).vertices.length = m.vertices.length + 3 * i := by
  rw [stateAt, List.length_append, length_flatMap_midBlock]

lemma stateAt_zero {α : Type} [Field α] [Inhabited α] (m : Mesh α) :
    stateAt m 0 = m := by
  obtain ⟨vs, is⟩ := m
  simp [stateAt]

/- ### The loop body advances the closed-form state -/

lemma stateAt_idx_orig {α : Type} [Field α] [Inhabited α] (m : Mesh α)
    {i : ℕ} (h3 : 3 * i + 3 ≤ m.indices.length) {k : ℕ} (hk : k < 3) :
    idxAt (stateAt m i) (3 * i + k) = idxAt m (3 * i + k) := by
  rw [idxAt, stateAt]
  rw [List.append_assoc]
  rw [List.getD_append_right _ _ _ _ (by rw [length_flatMap_rewBlock]; omega)]
  rw [length_flatMap_rewBlock]
  have hsub : 3 * i + k - 3 * i = k := by omega
  rw [hsub]
  rw [List.getD_append _ _ _ _ (by rw [List.length_drop]; omega)]
  rw [List.getD_eq_getElem?_getD, List.getElem?_drop, ← List.getD_eq_getElem?_getD]
  rfl

lemma idxAt_lt {α : Type} (m : Mesh α)
    (hval : ∀ k ∈ m.indices, k < m.vertices.length)
    {p : ℕ} (hp : p < m.indices.length) : idxAt m p < m.vertices.length := by
  have : idxAt m p = m.indices[p] := List.getD_eq_getElem m.indices 0 hp
  rw [this]
  exact hval _ (List.getElem_mem hp)

lemma stateAt_vtx_orig {α : Type} [Field α] [Inhabited α] (m : Mesh α)
    {v : ℕ} (hv : v < m.vertices.length) :
    (stateAt m i).vertices[v]? = some (vtxAt m v) := by
  rw [stateAt]
  rw [List.getElem?_append_left hv, List.getElem?_eq_getElem hv]
  rw [vtxAt, List.getD_eq_getElem _ _ hv]

lemma subdivideStep_stateAt {α : Type} [Field α] [Inhabited α] (m : Mesh α)
    (hval : ∀ k ∈ m.indices, k < m.vertices.length)
    (i : ℕ) (hi : i < m.indices.length / 3) :
    subdivideStep (stateAt m i) i = some (stateAt m (i + 1)) := by
  have h3 : 3 * i + 3 ≤ m.indices.length := by
    have h2 := Nat.div_mul_le_self m.indices.length 3
    have h1 : (i + 1) * 3 ≤ m.indices.length / 3 * 3 := Nat.mul_le_mul_right 3 hi
    omega
  have hidx0 : idxAt (stateAt m i) (3 * i) = idxAt m (3 * i) := by
    have := stateAt_idx_orig m h3 (show (0:ℕ) < 3 by omega)
    simpa using this
  have hidx1 : idxAt (stateAt m i) (3 * i + 1) = idxAt m (3 * i + 1) :=
    stateAt_idx_orig m h3 (show (1:ℕ) < 3 by omega)
  have hidx2 : idxAt (stateAt m i) (3 * i + 2) = idxAt m (3 * i + 2) :=
    stateAt_idx_orig m h3 (show (2:ℕ) < 3 by omega)
  have hb0 : idxAt m (3 * i) < m.vertices.length := idxAt_lt m hval (by omega)
  have hb1 : idxAt m (3 * i + 1) < m.vertices.length := idxAt_lt m hval (by omega)
  have hb2 : idxAt m (3 * i + 2) < m.vertices.length := idxAt_lt m hval (by omega)
  rw [subdivideStep, hidx0, hidx1, hidx2]
  rw [stateAt_vtx_orig m hb0, stateAt_vtx_orig m hb1, stateAt_vtx_orig m hb2]
  rw [Option.some_bind, Option.some_bind, Option.map_some']
  congr 1
  have hmi : (stateAt m i).vertices.length = m.vertices.length + 3 * i :=
    stateAt_vertices_length m i
  have hc0 : m.indices[3 * i] = idxAt m (3 * i) :=
    (List.getD_eq_getElem m.indices 0 (by omega)).symm
  have hc1 : m.indices[3 * i + 1] = idxAt m (3 * i + 1) :=
    (List.getD_eq_getElem m.indices 0 (by omega)).symm
  have hc2 : m.indices[3 * i + 2] = idxAt m (3 * i + 2) :=
    (List.getD_eq_getElem m.indices 0 (by omega)).symm
  have hdrop : m.indices.drop (3 * i) =
      idxAt m (3 * i) :: idxAt m (3 * i + 1) :: idxAt m (3 * i + 2) ::
        m.indices.drop (3 * (i + 1)) := by
    rw [List.drop_eq_getElem_cons (by omega : 3 * i < m.indices.length), hc0]
    rw [List.drop_eq_getElem_cons (by omega : 3 * i + 1 < m.indices.length), hc1]
    rw [List.drop_eq_getElem_cons (by omega : 3 * i + 2 < m.indices.length), hc2]
    have : 3 * i + 2 + 1 = 3 * (i + 1) := by omega
    rw [this]
  have hset1 : ∀ (u0 u1 u2 a : ℕ) (t : List ℕ),
      (u0 :: u1 :: u2 :: t).set 1 a = u0 :: a :: u2 :: t := fun _ _ _ _ _ => rfl
  have hset2 : ∀ (u0 u1 u2 a : ℕ) (t : List ℕ),
      (u0 :: u1 :: u2 :: t).set 2 a = u0 :: u1 :: a :: t := fun _ _ _ _ _ => rfl
  have hsv : (stateAt m i).vertices =
      m.vertices ++ (List.range i).flatMap (midBlock m) := rfl
  have hsi : (stateAt m i).indices =
      (List.range i).flatMap (rewBlock m) ++ m.indices.drop (3 * i) ++
        (List.range i).flatMap (appBlock m) := rfl
  rw [hmi, hsv, hsi, stateAt]
  congr 1
  · rw [List.append_assoc, List.range_succ, List.flatMap_append]
    congr 1
  · simp only [List.range_succ, List.flatMap_append, List.flatMap_cons,
      List.flatMap_nil, List.append_nil]
    rw [hdrop, List.append_assoc]
    rw [List.set_append, if_neg (by rw [length_flatMap_rewBlock]; omega),
      length_flatMap_rewBlock]
    have e1 : 3 * i + 1 - 3 * i = 1 := by omega
    rw [e1, List.cons_append, List.cons_append, List.cons_append, hset1]
    rw [List.set_append, if_neg (by rw [length_flatMap_rewBlock]; omega),
      length_flatMap_rewBlock]
    have e2 : 3 * i + 2 - 3 * i = 2 := by omega
    rw [e2, hset2]
    rw [rewBlock, appBlock]
    simp only [List.cons_append, List.nil_append, List.append_assoc]

/- ### The whole loop computes the closed form -/

lemma subdivideLoop_stateAt {α : Type} [Field α] [Inhabited α] (m : Mesh α)
    (hval : ∀ k ∈ m.indices, k < m.vertices.length) :
    ∀ (c i : ℕ), i + c = m.indices.length / 3 →
      subdivideLoop c i (stateAt m i) = some (stateAt m (m.indices.length / 3)) := by
  intro c
  induction c with
  | zero =>
    intro i hi
    rw [subdivideLoop]
    rw [show i = m.indices.length / 3 from by omega]
  | succ c ih =>
    intro i hi
    rw [subdivideLoop, subdivideStep_stateAt m hval i (by omega), Option.some_bind]
    exact ih (i + 1) (by omega)

/-- Master lemma: on any mesh whose indices are all in range, `subdivide`
succeeds and returns exactly the closed-form mesh `subdivideSpec`. -/

lemma subdivide_eq_spec {α : Type} [Field α] [Inhabited α] (m : Mesh α)
    (hval : ∀ k ∈ m.indices, k < m.vertices.length) :
    Mesh.subdivide m = some (subdivideSpec m) := by
  rw [Mesh.subdivide, subdivideSpec]
  have h0 := subdivideLoop_stateAt m hval (m.indices.length / 3) 0 (by omega)
  rw [stateAt_zero] at h0
  exact h0

/- ### Counting and framing corollaries of the closed form -/

lemma subdivideSpec_vertices_length {α : Type} [Field α] [Inhabited α]
    (m : Mesh α) :
    (subdivideSpec m).vertices.length =
      m.vertices.length + 3 * (m.indices.length / 3) :=
  stateAt_vertices_length m _

lemma subdivideSpec_indices_length {α : Type} [Field α] [Inhabited α]
    (m : Mesh α) :
    (subdivideSpec m).indices.length =
      m.indices.length + 9 * (m.indices.length / 3) := by
  have hdl := Nat.div_mul_le_self m.indices.length 3
  rw [subdivideSpec, stateAt]
  rw [List.length_append, List.length_append, length_flatMap_rewBlock,
    length_flatMap_appBlock, List.length_drop]
  omega

lemma subdivideSpec_vertices_prefix {α : Type} [Field α] [Inhabited α]
    (m : Mesh α) {v : ℕ} (hv : v < m.vertices.length) :
    (subdivideSpec m).vertices[v]? = m.vertices[v]? := by
  rw [subdivideSpec, stateAt]
  exact List.getElem?_append_left hv

lemma subdivideSpec_indices_head {α : Type} [Field α] [Inhabited α]
    (m : Mesh α) {j : ℕ} (hj : j < m.indices.length / 3) :
    idxAt (subdivideSpec m) (3 * j) = idxAt m (3 * j) := by
  have h1 : idxAt (subdivideSpec m) (3 * j) = idxAt (subdivideSpec m) (3 * j + 0) := rfl
  rw [h1, idxAt, subdivideSpec, stateAt, List.append_assoc]
  rw [List.getD_append _ _ _ _ (by rw [length_flatMap_rewBlock]; omega)]
  have h2 := flatMap_range_getD (rewBlock m) 3 0 (fun _ => rfl)
    (m.indices.length / 3) j 0 hj (by omega)
  rw [h2]
  rfl

/- ### The §3 invariant is preserved by subdivision -/

lemma subdivideSpec_valid {α : Type} [Field α] [Inhabited α] (m : Mesh α)
    (hval : ∀ k ∈ m.indices, k < m.vertices.length) :
    ∀ k ∈ (subdivideSpec m).indices, k < (subdivideSpec m).vertices.length := by
  have hdl := Nat.div_mul_le_self m.indices.length 3
  intro k hk
  rw [subdivideSpec_vertices_length]
  rw [subdivideSpec, stateAt] at hk
  rcases List.mem_append.1 hk with hk' | hk'
  · rcases List.mem_append.1 hk' with hk2 | hk2
    · obtain ⟨j, hj, hkj⟩ := List.mem_flatMap.1 hk2
      rw [List.mem_range] at hj
      rw [rewBlock] at hkj
      simp only [List.mem_cons, List.not_mem_nil, or_false] at hkj
      have hb : idxAt m (3 * j) < m.vertices.length :=
        idxAt_lt m hval (by omega)
      rcases hkj with rfl | rfl | rfl <;> omega
    · have hk3 : k ∈ m.indices := List.drop_subset _ _ hk2
      have := hval k hk3
      omega
  · obtain ⟨j, hj, hkj⟩ := List.mem_flatMap.1 hk'
    rw [List.mem_range] at hj
    rw [appBlock] at hkj
    simp only [List.mem_cons, List.not_mem_nil, or_false] at hkj
    have hb1 : idxAt m (3 * j + 1) < m.vertices.length :=
      idxAt_lt m hval (by omega)
    have hb2 : idxAt m (3 * j + 2) < m.vertices.length :=
      idxAt_lt m hval (by omega)
    rcases hkj with rfl | rfl | rfl | rfl | rfl | rfl | rfl | rfl | rfl <;> omega

lemma meshInv_subdivideSpec {α : Type} [Field α] [Inhabited α] (m : Mesh α)
    (h : MeshInv m) : MeshInv (subdivideSpec m) := by
  obtain ⟨h3, hval⟩ := h
  refine ⟨?_, subdivideSpec_valid m hval⟩
  rw [subdivideSpec_indices_length]
  omega

lemma iterSubdivide_inv {α : Type} [Field α] [Inhabited α] (n : ℕ) :
    ∀ (m : Mesh α), MeshInv m →
      ∃ m', iterSubdivide n m = some m' ∧ MeshInv m' := by
  induction n with
  | zero => intro m h; exact ⟨m, rfl, h⟩
  | succ n ih =>
    intro m h
    obtain ⟨m', hm', hinv⟩ := ih (subdivideSpec m) (meshInv_subdivideSpec m h)
    refine ⟨m', ?_, hinv⟩
    rw [iterSubdivide, subdivide_eq_spec m h.2, Option.some_bind, hm']

lemma brickBase_indices_eq {α : Type} [Field α] (w h d : α) :
    (brickBase w h d).indices =
      [0, 1, 2, 0, 2, 3, 4, 5, 6, 4, 6, 7, 8, 9, 10, 8, 10, 11,
       12, 13, 14, 12, 14, 15, 16, 17, 18, 16, 18, 19, 20, 21, 22, 20, 22, 23] := rfl

lemma brickBase_meshInv {α : Type} [Field α] (w h d : α) :
    MeshInv (brickBase w h d) := by
  have hlen : (brickBase w h d).vertices.length = 24 := rfl
  refine ⟨?_, ?_⟩
  · rw [brickBase_indices_eq]
    decide
  · rw [hlen, brickBase_indices_eq]
    decide

lemma sphereVertices_length (radius : ℝ) (slice stack : ℕ) :
    (sphereVertices radius slice stack).length = sphereVertexCount slice stack := by
  have hr := length_flatMap_const
    (fun i => (List.range (slice + 1)).map fun j => sphereRingVertex radius slice stack i j)
    (slice + 1) (fun j => by rw [List.length_map, List.length_range])
    (List.range' 1 (stack - 1))
  rw [sphereVertices, sphereVertexCount, List.length_append, List.length_cons, hr,
    List.length_range']
  simp only [List.length_cons, List.length_nil]
  ring_nf

lemma sphereIndices_length (slice stack : ℕ) (hst : 2 ≤ stack) :
    (sphereIndices slice stack).length = 3 * (2 * slice * (stack - 1)) := by
  obtain ⟨t, rfl⟩ : ∃ t, stack = t + 2 := ⟨stack - 2, by omega⟩
  have htop := length_flatMap_const (fun i => ([0, i + 2, i + 1] : List ℕ)) 3
    (fun j => rfl) (List.range slice)
  have hbody := length_flatMap_const
    (fun i => (List.range slice).flatMap fun j =>
      ([1 + i * (slice + 1) + j, 1 + i * (slice + 1) + j + 1, 1 + (i + 1) * (slice + 1) + j,
        1 + (i + 1) * (slice + 1) + j, 1 + i * (slice + 1) + j + 1,
        1 + (i + 1) * (slice + 1) + j + 1] : List ℕ))
    (6 * slice)
    (fun i => by
      have hin := length_flatMap_const
        (fun j => ([1 + i * (slice + 1) + j, 1 + i * (slice + 1) + j + 1,
          1 + (i + 1) * (slice + 1) + j, 1 + (i + 1) * (slice + 1) + j,
          1 + i * (slice + 1) + j + 1, 1 + (i + 1) * (slice + 1) + j + 1] : List ℕ))
        6 (fun j => rfl) (List.range slice)
      rw [hin, List.length_range])
    (List.range (t + 2 - 2))
  have hbot := length_flatMap_const
    (fun i => ([sphereVertexCount slice (t + 2) - 1,
      sphereVertexCount slice (t + 2) - 1 - slice - 1 + i,
      sphereVertexCount slice (t + 2) - 1 - slice - 1 + i + 1] : List ℕ)) 3
    (fun j => rfl) (List.range slice)
  rw [sphereIndices, List.length_append, List.length_append, htop, hbody, hbot,
    List.length_range]
  have h1 : t + 2 - 2 = t := by omega
  have h2 : t + 2 - 1 = t + 1 := by omega
  rw [h1, h2, List.length_range]
  ring

lemma sphereIndices_valid (slice stack : ℕ) (hsl : 3 ≤ slice) (hst : 2 ≤ stack) :
    ∀ k ∈ sphereIndices slice stack, k < sphereVertexCount slice stack := by
  obtain ⟨t, rfl⟩ : ∃ t, stack = t + 2 := ⟨stack - 2, by omega⟩
  have h2 : t + 2 - 1 = t + 1 := by omega
  have h3 : t + 2 - 2 = t := by omega
  rw [sphereVertexCount, h2]
  have hmul : (t + 1) * (slice + 1) = t * (slice + 1) + (slice + 1) := by ring
  intro k hk
  rw [sphereIndices] at hk
  rcases List.mem_append.1 hk with hk' | hk'
  · rcases List.mem_append.1 hk' with hk2 | hk2
    · -- top cap
      obtain ⟨i, hi, hki⟩ := List.mem_flatMap.1 hk2
      rw [List.mem_range] at hi
      simp only [List.mem_cons, List.not_mem_nil, or_false] at hki
      have hle : slice + 1 ≤ (t + 1) * (slice + 1) :=
        Nat.le_mul_of_pos_left _ (by omega)
      rcases hki with rfl | rfl | rfl <;> omega
    · -- interior quads
      obtain ⟨i, hi, hki⟩ := List.mem_flatMap.1 hk2
      rw [h3, List.mem_range] at hi
      obtain ⟨j, hj, hkj⟩ := List.mem_flatMap.1 hki
      rw [List.mem_range] at hj
      simp only [List.mem_cons, List.not_mem_nil, or_false] at hkj
      have hle : (i + 1) * (slice + 1) ≤ t * (slice + 1) :=
        Nat.mul_le_mul_right _ (by omega)
      have hle2 : i * (slice + 1) ≤ (i + 1) * (slice + 1) :=
        Nat.mul_le_mul_right _ (by omega)
      rcases hkj with rfl | rfl | rfl | rfl | rfl | rfl <;> omega
  · -- bottom cap
    obtain ⟨i, hi, hki⟩ := List.mem_flatMap.1 hk'
    rw [List.mem_range] at hi
    simp only [List.mem_cons, List.not_mem_nil, or_false] at hki
    rw [sphereVertexCount, h2] at hki
    have hle : slice + 1 ≤ (t + 1) * (slice + 1) :=
      Nat.le_mul_of_pos_left _ (by omega)
    rcases hki with rfl | rfl | rfl <;> omega

lemma sphere_meshInv (radius : ℝ) (slice stack : ℕ)
    (hsl : 3 ≤ slice) (hst : 2 ≤ stack) : MeshInv (Mesh.sphere radius slice stack) := by
  constructor
  · have h := sphereIndices_length slice stack hst
    show (sphereIndices slice stack).length % 3 = 0
    omega
  · intro k hk
    have h := sphereIndices_valid slice stack hsl hst k hk
    have hlen := sphereVertices_length radius slice stack
    show k < (sphereVertices radius slice stack).length
    omega

lemma icoMesh_meshInv : MeshInv icoMesh := by
  constructor
  · decide
  · decide

/- ### Componentwise simp lemmas for the vector instances -/

@[simp] lemma Vec3_add_x {α : Type} [Add α] (a b : Vec3 α) : (a + b).x = a.x + b.x := rfl

@[simp] lemma Vec3_add_y {α : Type} [Add α] (a b : Vec3 α) : (a + b).y = a.y + b.y := rfl

@[simp] lemma Vec3_add_z {α : Type} [Add α] (a b : Vec3 α) : (a + b).z = a.z + b.z := rfl

@[simp] lemma Vec3_sub_x {α : Type} [Sub α] (a b : Vec3 α) : (a - b).x = a.x - b.x := rfl

@[simp] lemma Vec3_sub_y {α : Type} [Sub α] (a b : Vec3 α) : (a - b).y = a.y - b.y := rfl

@[simp] lemma Vec3_sub_z {α : Type} [Sub α] (a b : Vec3 α) : (a - b).z = a.z - b.z := rfl

@[simp] lemma Vec3_div_x {α : Type} [Div α] (v : Vec3 α) (c : α) : (v / c).x = v.x / c := rfl

@[simp] lemma Vec3_div_y {α : Type} [Div α] (v : Vec3 α) (c : α) : (v / c).y = v.y / c := rfl

@[simp] lemma Vec3_div_z {α : Type} [Div α] (v : Vec3 α) (c : α) : (v / c).z = v.z / c := rfl

@[simp] lemma Vec3_mul_x {α : Type} [Mul α] (v : Vec3 α) (c : α) : (v * c).x = v.x * c := rfl

@[simp] lemma Vec3_mul_y {α : Type} [Mul α] (v : Vec3 α) (c : α) : (v * c).y = v.y * c := rfl

@[simp] lemma Vec3_mul_z {α : Type} [Mul α] (v : Vec3 α) (c : α) : (v * c).z = v.z * c := rfl

@[simp] lemma Vec2_add_x {α : Type} [Add α] (a b : Vec2 α) : (a + b).x = a.x + b.x := rfl

@[simp] lemma Vec2_add_y {α : Type} [Add α] (a b : Vec2 α) : (a + b).y = a.y + b.y := rfl

@[simp] lemma Vec2_div_x {α : Type} [Div α] (v : Vec2 α) (c : α) : (v / c).x = v.x / c := rfl

@[simp] lemma Vec2_div_y {α : Type} [Div α] (v : Vec2 α) (c : α) : (v / c).y = v.y / c := rfl

lemma plane_of_cross {a b c : Vec3 ℚ}
    (h : dot3 a (cross3 (b - a) (c - a)) ≠ 0) :
    ∃ u : Vec3 ℚ, ∃ d : ℚ, d ≠ 0 ∧
      dot3 a u = d ∧ dot3 b u = d ∧ dot3 c u = d := by
  refine ⟨cross3 (b - a) (c - a), dot3 a (cross3 (b - a) (c - a)), h, rfl, ?_, ?_⟩
  · simp only [dot3, cross3, Vec3_sub_x, Vec3_sub_y, Vec3_sub_z]
    ring
  · simp only [dot3, cross3, Vec3_sub_x, Vec3_sub_y, Vec3_sub_z]
    ring

lemma dot3_avg (a b u : Vec3 ℚ) :
    dot3 ((a + b) / (2 : ℚ)) u = (dot3 a u + dot3 b u) / 2 := by
  simp only [dot3, Vec3_add_x, Vec3_add_y, Vec3_add_z, Vec3_div_x, Vec3_div_y, Vec3_div_z]
  ring

lemma pos_ne_zero_of_dot {p u : Vec3 ℚ} {d : ℚ}
    (hd : dot3 p u = d) (hne : d ≠ 0) : p ≠ ⟨0, 0, 0⟩ := by
  intro hp
  apply hne
  rw [← hd, hp]
  simp [dot3]

lemma icoMesh_planarInv : PlanarInv icoMesh := by
  intro j hj
  have hlen : icoMesh.indices.length = 60 := rfl
  rw [hlen] at hj
  have hj20 : j < 20 := by omega
  interval_cases j <;>
  · apply plane_of_cross
    norm_num [idxAt, vtxAt, icoMesh, mkPosVertex, icoX, icoZ, dot3, cross3, List.getD]

lemma icoMesh_pos_ne_zero : ∀ v ∈ icoMesh.vertices, v.position ≠ ⟨0, 0, 0⟩ := by
  intro v hv
  fin_cases hv <;> norm_num [mkPosVertex, icoX, icoZ, Vec3.mk.injEq]

lemma icoMesh_geoInv : GeoInv icoMesh :=
  ⟨icoMesh_meshInv, icoMesh_planarInv, icoMesh_pos_ne_zero⟩

/- ### The geodesic invariant is preserved by subdivision -/

lemma subdivideSpec_vtxAt_old {α : Type} [Field α] [Inhabited α] (m : Mesh α)
    {v : ℕ} (hv : v < m.vertices.length) :
    vtxAt (subdivideSpec m) v = vtxAt m v := by
  rw [vtxAt, vtxAt, subdivideSpec, stateAt]
  exact List.getD_append _ _ _ _ hv

lemma subdivideSpec_vtxAt_mid {α : Type} [Field α] [Inhabited α] (m : Mesh α)
    {j k : ℕ} (hj : j < m.indices.length / 3) (hk : k < 3) :
    vtxAt (subdivideSpec m) (m.vertices.length + 3 * j + k) =
      (midBlock m j).getD k default := by
  rw [vtxAt, subdivideSpec, stateAt]
  rw [List.getD_append_right _ _ _ _ (by omega)]
  have hsub : m.vertices.length + 3 * j + k - m.vertices.length = 3 * j + k := by omega
  rw [hsub]
  exact flatMap_range_getD (midBlock m) 3 default (fun _ => rfl) _ j k hj hk

lemma subdivideSpec_indices_eq {α : Type} [Field α] [Inhabited α] (m : Mesh α)
    (h3 : m.indices.length % 3 = 0) :
    (subdivideSpec m).indices =
      (List.range (m.indices.length / 3)).flatMap (rewBlock m) ++
      (List.range (m.indices.length / 3)).flatMap (appBlock m) := by
  rw [subdivideSpec, stateAt]
  have hlen : 3 * (m.indices.length / 3) = m.indices.length := by omega
  rw [hlen, List.drop_length, List.append_nil]

lemma subdivideSpec_idxAt_rew {α : Type} [Field α] [Inhabited α] (m : Mesh α)
    (h3 : m.indices.length % 3 = 0) {j k : ℕ}
    (hj : j < m.indices.length / 3) (hk : k < 3) :
    idxAt (subdivideSpec m) (3 * j + k) = (rewBlock m j).getD k 0 := by
  rw [idxAt, subdivideSpec_indices_eq m h3]
  rw [List.getD_append _ _ _ _ (by rw [length_flatMap_rewBlock]; omega)]
  exact flatMap_range_getD (rewBlock m) 3 0 (fun _ => rfl) _ j k hj hk

lemma subdivideSpec_idxAt_app {α : Type} [Field α] [Inhabited α] (m : Mesh α)
    (h3 : m.indices.length % 3 = 0) {j r k : ℕ}
    (hj : j < m.indices.length / 3) (hr : r < 3) (hk : k < 3) :
    idxAt (subdivideSpec m) (3 * (m.indices.length / 3 + 3 * j + r) + k) =
      (appBlock m j).getD (3 * r + k) 0 := by
  rw [idxAt, subdivideSpec_indices_eq m h3]
  rw [List.getD_append_right _ _ _ _ (by rw [length_flatMap_rewBlock]; omega)]
  rw [length_flatMap_rewBlock]
  have hsub : 3 * (m.indices.length / 3 + 3 * j + r) + k - 3 * (m.indices.length / 3) =
      9 * j + (3 * r + k) := by
    have := Nat.mul_add 3 (m.indices.length / 3 + 3 * j) r
    omega
  rw [hsub]
  exact flatMap_range_getD (appBlock m) 9 0 (fun _ => rfl) _ j (3 * r + k) hj (by omega)

lemma dot3_middle {w0 w1 : Vertex ℚ} {u : Vec3 ℚ} {d : ℚ}
    (ha : dot3 w0.position u = d) (hb : dot3 w1.position u = d) :
    dot3 (Vertex.get_middle w0 w1).position u = d := by
  have hmid : (Vertex.get_middle w0 w1).position =
      (w0.position + w1.position) / (2 : ℚ) := rfl
  rw [hmid, dot3_avg, ha, hb, add_self_div_two]

lemma planarInv_subdivideSpec (m : Mesh ℚ) (hmi : MeshInv m)
    (hpl : PlanarInv m) : PlanarInv (subdivideSpec m) := by
  obtain ⟨h3, hval⟩ := hmi
  intro s hs
  have hlen' := subdivideSpec_indices_length m
  rw [hlen'] at hs
  by_cases hcase : s < m.indices.length / 3
  · -- the rewritten original slot `s`: triple `(v0, m0, m2)`
    obtain ⟨u, d, hd, h0, h1, h2⟩ := hpl s (by omega)
    have hi0 := subdivideSpec_idxAt_rew m h3 hcase (show (0:ℕ) < 3 by omega)
    have hi1 := subdivideSpec_idxAt_rew m h3 hcase (show (1:ℕ) < 3 by omega)
    have hi2 := subdivideSpec_idxAt_rew m h3 hcase (show (2:ℕ) < 3 by omega)
    simp only [Nat.add_zero] at hi0
    have hg0 : (rewBlock m s).getD 0 0 = idxAt m (3 * s) := rfl
    have hg1 : (rewBlock m s).getD 1 0 = m.vertices.length + 3 * s := rfl
    have hg2 : (rewBlock m s).getD 2 0 = m.vertices.length + 3 * s + 2 := rfl
    rw [hg0] at hi0; rw [hg1] at hi1; rw [hg2] at hi2
    refine ⟨u, d, hd, ?_, ?_, ?_⟩
    · rw [hi0, subdivideSpec_vtxAt_old m (idxAt_lt m hval (by omega))]
      exact h0
    · rw [hi1]
      have := subdivideSpec_vtxAt_mid m hcase (show (0:ℕ) < 3 by omega)
      simp only [Nat.add_zero] at this
      rw [this]
      exact dot3_middle h0 h1
    · rw [hi2]
      have := subdivideSpec_vtxAt_mid m hcase (show (2:ℕ) < 3 by omega)
      rw [this]
      exact dot3_middle h0 h2
  · -- an appended slot: `s = T + 3*j + r`
    obtain ⟨j, r, hj, hr, rfl⟩ :
        ∃ j r, j < m.indices.length / 3 ∧ r < 3 ∧
          s = m.indices.length / 3 + 3 * j + r :=
      ⟨(s - m.indices.length / 3) / 3, (s - m.indices.length / 3) % 3,
        by omega, by omega, by omega⟩
    obtain ⟨u, d, hd, h0, h1, h2⟩ := hpl j (by omega)
    have hmid0 := subdivideSpec_vtxAt_mid m hj (show (0:ℕ) < 3 by omega)
    have hmid1 := subdivideSpec_vtxAt_mid m hj (show (1:ℕ) < 3 by omega)
    have hmid2 := subdivideSpec_vtxAt_mid m hj (show (2:ℕ) < 3 by omega)
    simp only [Nat.add_zero] at hmid0
    have hb1 : idxAt m (3 * j + 1) < m.vertices.length := idxAt_lt m hval (by omega)
    have hb2 : idxAt m (3 * j + 2) < m.vertices.length := idxAt_lt m hval (by omega)
    have hdm0 : dot3 (vtxAt (subdivideSpec m) (m.vertices.length + 3 * j)).position u = d := by
      rw [hmid0]; exact dot3_middle h0 h1
    have hdm1 : dot3 (vtxAt (subdivideSpec m) (m.vertices.length + 3 * j + 1)).position u = d := by
      rw [hmid1]; exact dot3_middle h1 h2
    have hdm2 : dot3 (vtxAt (subdivideSpec m) (m.vertices.length + 3 * j + 2)).position u = d := by
      rw [hmid2]; exact dot3_middle h0 h2
    have hdv1 : dot3 (vtxAt (subdivideSpec m) (idxAt m (3 * j + 1))).position u = d := by
      rw [subdivideSpec_vtxAt_old m hb1]; exact h1
    have hdv2 : dot3 (vtxAt (subdivideSpec m) (idxAt m (3 * j + 2))).position u = d := by
      rw [subdivideSpec_vtxAt_old m hb2]; exact h2
    have hk0 := subdivideSpec_idxAt_app m h3 hj hr (show (0:ℕ) < 3 by omega)
    have hk1 := subdivideSpec_idxAt_app m h3 hj hr (show (1:ℕ) < 3 by omega)
    have hk2 := subdivideSpec_idxAt_app m h3 hj hr (show (2:ℕ) < 3 by omega)
    simp only [Nat.add_zero] at hk0
    interval_cases r
    · refine ⟨u, d, hd, ?_, ?_, ?_⟩
      · rw [hk0]; exact hdm0
      · rw [hk1]; exact hdv1
      · rw [hk2]; exact hdm1
    · refine ⟨u, d, hd, ?_, ?_, ?_⟩
      · rw [hk0]; exact hdm0
      · rw [hk1]; exact hdm1
      · rw [hk2]; exact hdm2
    · refine ⟨u, d, hd, ?_, ?_, ?_⟩
      · rw [hk0]; exact hdm2
      · rw [hk1]; exact hdm1
      · rw [hk2]; exact hdv2

lemma posNz_subdivideSpec (m : Mesh ℚ) (hmi : MeshInv m) (hpl : PlanarInv m)
    (hnz : ∀ v ∈ m.vertices, v.position ≠ ⟨0, 0, 0⟩) :
    ∀ v ∈ (subdivideSpec m).vertices, v.position ≠ ⟨0, 0, 0⟩ := by
  obtain ⟨h3, hval⟩ := hmi
  intro v hv
  rw [subdivideSpec, stateAt] at hv
  rcases List.mem_append.1 hv with hv' | hv'
  · exact hnz v hv'
  · obtain ⟨j, hjmem, hvin⟩ := List.mem_flatMap.1 hv'
    rw [List.mem_range] at hjmem
    obtain ⟨u, d, hd, h0, h1, h2⟩ := hpl j (by omega)
    rw [midBlock] at hvin
    simp only [List.mem_cons, List.not_mem_nil, or_false] at hvin
    rcases hvin with rfl | rfl | rfl
    · exact pos_ne_zero_of_dot (dot3_middle h0 h1) hd
    · exact pos_ne_zero_of_dot (dot3_middle h1 h2) hd
    · exact pos_ne_zero_of_dot (dot3_middle h0 h2) hd

lemma geoInv_subdivideSpec (m : Mesh ℚ) (h : GeoInv m) : GeoInv (subdivideSpec m) :=
  ⟨meshInv_subdivideSpec m h.1,
   planarInv_subdivideSpec m h.1 h.2.1,
   posNz_subdivideSpec m h.1 h.2.1 h.2.2⟩

lemma geoInv_iterSubdivide (n : ℕ) :
    ∀ m : Mesh ℚ, GeoInv m → ∃ m', iterSubdivide n m = some m' ∧ GeoInv m' := by
  induction n with
  | zero => intro m h; exact ⟨m, rfl, h⟩
  | succ n ih =>
    intro m h
    obtain ⟨m', hm', hinv⟩ := ih (subdivideSpec m) (geoInv_subdivideSpec m h)
    refine ⟨m', ?_, hinv⟩
    rw [iterSubdivide, subdivide_eq_spec m h.1.2, Option.some_bind, hm']

/- ### Magnitude of the re-projected positions -/

lemma dot3_self_nonneg (v : Vec3 ℝ) : 0 ≤ dot3 v v := by
  simp only [dot3]
  nlinarith [mul_self_nonneg v.x, mul_self_nonneg v.y, mul_self_nonneg v.z]

lemma dot3_self_eq_zero_iff (v : Vec3 ℝ) : dot3 v v = 0 ↔ v = ⟨0, 0, 0⟩ := by
  constructor
  · intro h
    simp only [dot3] at h
    have hx : v.x * v.x = 0 := by
      nlinarith [mul_self_nonneg v.x, mul_self_nonneg v.y, mul_self_nonneg v.z]
    have hy : v.y * v.y = 0 := by
      nlinarith [mul_self_nonneg v.x, mul_self_nonneg v.y, mul_self_nonneg v.z]
    have hz : v.z * v.z = 0 := by
      nlinarith [mul_self_nonneg v.x, mul_self_nonneg v.y, mul_self_nonneg v.z]
    obtain ⟨a, b, c⟩ := v
    simp only [Vec3.mk.injEq]
    exact ⟨mul_self_eq_zero.1 hx, mul_self_eq_zero.1 hy, mul_self_eq_zero.1 hz⟩
  · intro h
    rw [h]
    simp [dot3]

lemma magnitude3_normalize_mul (r : ℝ) (hr : 0 < r) (p : Vec3 ℝ)
    (hp : p ≠ ⟨0, 0, 0⟩) : magnitude3 (normalize3 p * r) = r := by
  have hd : 0 < dot3 p p := by
    rcases (dot3_self_nonneg p).lt_or_eq with h | h
    · exact h
    · exact absurd ((dot3_self_eq_zero_iff p).1 h.symm) hp
  have hmagpos : 0 < magnitude3 p := Real.sqrt_pos.mpr hd
  have hsq : magnitude3 p * magnitude3 p = dot3 p p :=
    Real.mul_self_sqrt (le_of_lt hd)
  have hdot : dot3 (normalize3 p * r) (normalize3 p * r) = r * r := by
    have hexp : dot3 (normalize3 p * r) (normalize3 p * r) =
        dot3 p p / (magnitude3 p * magnitude3 p) * (r * r) := by
      simp only [normalize3, dot3, Vec3_mul_x, Vec3_mul_y, Vec3_mul_z,
        Vec3_div_x, Vec3_div_y, Vec3_div_z]
      ring
    rw [hexp, ← hsq]
    field_simp
  rw [magnitude3, hdot]
  exact Real.sqrt_mul_self (le_of_lt hr)

lemma qVec3_ne_zero {p : Vec3 ℚ} (h : p ≠ ⟨0, 0, 0⟩) : qVec3 p ≠ ⟨0, 0, 0⟩ := by
  intro he
  apply h
  obtain ⟨a, b, c⟩ := p
  simp only [qVec3, Vec3.mk.injEq, Rat.cast_eq_zero] at he
  simp only [Vec3.mk.injEq]
  exact he

lemma postProcess_position (r : ℝ) (v : Vertex ℝ) :
    (postProcess r v).position = normalize3 v.position * r := rfl

lemma postProcess_magnitude (r : ℝ) (hr : 0 < r) (v : Vertex ℝ)
    (hp : v.position ≠ ⟨0, 0, 0⟩) :
    magnitude3 (postProcess r v).position = r := by
  rw [postProcess_position]
  exact magnitude3_normalize_mul r hr v.position hp

/-- The tangent actually stored by the post-process is the *unnormalized*
partial derivative of position with respect to `theta` at the spherical
angles of the final position (the `[0, 2π)` shift of `theta` is invisible to
`sin`/`cos`). -/

lemma postProcess_tangent (r : ℝ) (v : Vertex ℝ) :
    (postProcess r v).tangent =
      ⟨-r * Real.sin (phiOfPos r (postProcess r v).position) *
          Real.sin (thetaOfPos (postProcess r v).position), 0,
        r * Real.sin (phiOfPos r (postProcess r v).position) *
          Real.cos (thetaOfPos (postProcess r v).position)⟩ := by
  by_cases hneg : atan2 (normalize3 v.position * r).z (normalize3 v.position * r).x < 0
  · simp only [postProcess, thetaOfPos, phiOfPos, postProcess_position, if_pos hneg,
      Real.sin_add_two_pi, Real.cos_add_two_pi]
  · simp only [postProcess, thetaOfPos, phiOfPos, postProcess_position, if_neg hneg]

/- ### Success of `geo_sphere` and the projected magnitudes -/

lemma geo_sphere_eq (r : ℝ) (n : ℕ) {mq : Mesh ℚ}
    (hmq : iterSubdivide n icoMesh = some mq) :
    Mesh.geo_sphere r n = some
      { vertices := mq.vertices.map fun v => postProcess r (qVertex v)
        indices := mq.indices } := by
  rw [Mesh.geo_sphere, hmq, Option.map_some']

lemma geo_sphere_magnitude (r : ℝ) (hr : 0 < r) (n : ℕ) :
    ∃ m, Mesh.geo_sphere r n = some m ∧
      ∀ v ∈ m.vertices, magnitude3 v.position = r := by
  obtain ⟨mq, hmq, hinv⟩ := geoInv_iterSubdivide n icoMesh icoMesh_geoInv
  refine ⟨_, geo_sphere_eq r n hmq, ?_⟩
  intro v hv
  simp only [List.mem_map] at hv
  obtain ⟨w, hw, rfl⟩ := hv
  apply postProcess_magnitude r hr
  exact qVec3_ne_zero (hinv.2.2 w hw)

lemma geo_sphere_two_zero : Mesh.geo_sphere 2 0 = some geoMesh20 := rfl

lemma geoVertex0_mem : geoVertex0 ∈ geoMesh20.vertices :=
  List.mem_map.2 ⟨mkPosVertex (-icoX) 0 icoZ, List.mem_cons_self _ _, rfl⟩

lemma geoVertex0_position_y : geoVertex0.position.y = 0 := by
  have h : geoVertex0.position.y =
      ((0 : ℚ) : ℝ) / magnitude3 (qVec3 ⟨-icoX, 0, icoZ⟩) * 2 := rfl
  rw [h]
  norm_num

/-- The concrete refutation of claim C2's normalization: at radius 2 the
stored tangent has squared length 4, while the spec tangent is a unit
vector. -/

lemma geoVertex0_tangent_ne :
    geoVertex0.tangent ≠ specTangentNormalized 2 geoVertex0.position := by
  have hphi : phiOfPos 2 geoVertex0.position = Real.pi / 2 := by
    rw [phiOfPos, geoVertex0_position_y]
    norm_num [Real.arccos_zero]
  have hsin : Real.sin (phiOfPos 2 geoVertex0.position) = 1 := by
    rw [hphi, Real.sin_pi_div_two]
  have htan := postProcess_tangent 2 (qVertex (mkPosVertex (-icoX) 0 icoZ))
  have htan0 : geoVertex0.tangent =
      ⟨-2 * Real.sin (phiOfPos 2 geoVertex0.position) *
          Real.sin (thetaOfPos geoVertex0.position), 0,
        2 * Real.sin (phiOfPos 2 geoVertex0.position) *
          Real.cos (thetaOfPos geoVertex0.position)⟩ := htan
  set th := thetaOfPos geoVertex0.position with hth
  rw [hsin] at htan0
  rw [htan0, specTangentNormalized, hsin]
  have hw : magnitude3 ⟨-2 * 1 * Real.sin th, 0, 2 * 1 * Real.cos th⟩ = 2 := by
    have hd : dot3 (⟨-2 * 1 * Real.sin th, 0, 2 * 1 * Real.cos th⟩ : Vec3 ℝ)
        ⟨-2 * 1 * Real.sin th, 0, 2 * 1 * Real.cos th⟩ = 4 := by
      simp only [dot3]
      nlinarith [Real.sin_sq_add_cos_sq th]
    rw [magnitude3, hd, show (4 : ℝ) = 2 ^ 2 by norm_num, Real.sqrt_sq (by norm_num)]
  rw [normalize3, hw]
  intro heq
  have hx : -2 * 1 * Real.sin th = -2 * 1 * Real.sin th / 2 := congrArg Vec3.x heq
  have hz : 2 * 1 * Real.cos th = 2 * 1 * Real.cos th / 2 := congrArg Vec3.z heq
  have hs : Real.sin th = 0 := by linarith
  have hc : Real.cos th = 0 := by linarith
  have := Real.sin_sq_add_cos_sq th
  rw [hs, hc] at this
  norm_num at this

lemma Vec3_add_comm {α : Type} [Field α] (u v : Vec3 α) : u + v = v + u := by
  ext <;> simp [add_comm]

lemma Vec2_add_comm {α : Type} [Field α] (u v : Vec2 α) : u + v = v + u := by
  ext <;> simp [add_comm]

lemma iterSubdivide_succ_right {α : Type} [Field α] [Inhabited α] (n : ℕ) :
    ∀ m : Mesh α, iterSubdivide (n + 1) m = (iterSubdivide n m).bind Mesh.subdivide := by
  induction n with
  | zero =>
    intro m
    show (Mesh.subdivide m).bind (iterSubdivide 0) = (some m).bind Mesh.subdivide
    rw [Option.some_bind]
    cases Mesh.subdivide m with
    | none => rfl
    | some x => rfl
  | succ n ih =>
    intro m
    show (Mesh.subdivide m).bind (iterSubdivide (n + 1)) =
      ((Mesh.subdivide m).bind (iterSubdivide n)).bind Mesh.subdivide
    rw [Option.bind_assoc]
    cases Mesh.subdivide m with
    | none => rfl
    | some x =>
      rw [Option.some_bind, Option.some_bind]
      exact ih x

lemma meshInv_mapped (mq : Mesh ℚ) (f : Vertex ℚ → Vertex ℝ) (h : MeshInv mq) :
    MeshInv { vertices := mq.vertices.map f, indices := mq.indices } := by
  refine ⟨h.1, ?_⟩
  intro k hk
  show k < (mq.vertices.map f).length
  rw [List.length_map]
  exact h.2 k hk

lemma wMesh_valid : ∀ k ∈ wMesh.indices, k < wMesh.vertices.length := by
  have hl : wMesh.vertices.length = 3 := rfl
  have hi : wMesh.indices = [0, 1, 2] := rfl
  rw [hl, hi]
  decide

lemma wMesh_meshInv : MeshInv wMesh := by
  refine ⟨?_, wMesh_valid⟩
  have hi : wMesh.indices = [0, 1, 2] := rfl
  rw [hi]
  decide

/- ### Claim theorems -/

/-- C1 (counterexample): `sphere(1, 8, 4)` has 29 vertices, not the
`8·(4-1)+2 = 26` the claim states — each of the 3 latitude rings stores
`slices + 1 = 9` vertices because the seam vertex is duplicated. -/

theorem sphere_8_4_vertex_count_cex :
    (Mesh.sphere 1 8 4).vertices.length = 29 ∧
    ¬ ((Mesh.sphere 1 8 4).vertices.length = 8 * (4 - 1) + 2) := by
  have h : (Mesh.sphere 1 8 4).vertices.length = sphereVertexCount 8 4 :=
    sphereVertices_length 1 8 4
  rw [h]
  norm_num [sphereVertexCount]

/-- C1 (amended): for `slices ≥ 3`, `stacks ≥ 2`, `sphere(r, slices, stacks)`
has `(slices+1)·(stacks-1) + 2` vertices (the seam vertex of every ring is
duplicated) and `2·slices·(stacks-1)` triangles, i.e. `3·2·slices·(stacks-1)`
indices; in particular `sphere(r, 8, 4)` has 29 vertices and 144 indices. -/

theorem sphere_counts (r : ℝ) (slice stack : ℕ)
    (hsl : 3 ≤ slice) (hst : 2 ≤ stack) :
    (Mesh.sphere r slice stack).vertices.length = (slice + 1) * (stack - 1) + 2 ∧
    (Mesh.sphere r slice stack).indices.length = 3 * (2 * slice * (stack - 1)) := by
  constructor
  · have h : (Mesh.sphere r slice stack).vertices.length = sphereVertexCount slice stack :=
      sphereVertices_length r slice stack
    rw [h, sphereVertexCount]
    ring
  · exact sphereIndices_length slice stack hst

/-- C1 (witness): the amended count theorem at `sphere(1, 8, 4)`:
29 vertices and 144 indices. -/

theorem sphere_counts_witness :
    ((3:ℕ) ≤ 8 ∧ (2:ℕ) ≤ 4) ∧
    (Mesh.sphere 1 8 4).vertices.length = (8 + 1) * (4 - 1) + 2 ∧
    (Mesh.sphere 1 8 4).indices.length = 3 * (2 * 8 * (4 - 1)) :=
  ⟨⟨by norm_num, by norm_num⟩, sphere_counts 1 8 4 (by norm_num) (by norm_num)⟩

/-- C2 (counterexample): in `geo_sphere(2, 0)` the first output vertex's
stored tangent is not the normalized partial derivative of position with
respect to `theta` — the code stores the raw derivative of length
`radius·sin(phi)`, here 2, while the spec tangent is a unit vector. -/

theorem geo_sphere_tangent_cex :
    Mesh.geo_sphere 2 0 = some geoMesh20 ∧
    geoVertex0 ∈ geoMesh20.vertices ∧
    geoVertex0.tangent ≠ specTangentNormalized 2 geoVertex0.position :=
  ⟨geo_sphere_two_zero, geoVertex0_mem, geoVertex0_tangent_ne⟩

/-- C2 (amended): every vertex of `geo_sphere(r, n)` stores as tangent the
*unnormalized* partial derivative of the spherical position with respect to
`theta`, `r·sin(phi)·(-sin(theta), 0, cos(theta))`, where `theta` and `phi`
are the spherical angles of the vertex's final projected position. -/

theorem geo_sphere_tangent_unnormalized (r : ℝ) (n : ℕ) (m : Mesh ℝ)
    (hm : Mesh.geo_sphere r n = some m) :
    ∀ v ∈ m.vertices, v.tangent =
      ⟨-r * Real.sin (phiOfPos r v.position) * Real.sin (thetaOfPos v.position), 0,
        r * Real.sin (phiOfPos r v.position) * Real.cos (thetaOfPos v.position)⟩ := by
  rw [Mesh.geo_sphere] at hm
  cases hpre : iterSubdivide n icoMesh with
  | none => rw [hpre] at hm; exact absurd hm (by simp)
  | some mq =>
    rw [hpre, Option.map_some'] at hm
    cases hm
    intro v hv
    simp only [List.mem_map] at hv
    obtain ⟨w, hw, rfl⟩ := hv
    exact postProcess_tangent r (qVertex w)

/-- C2 (witness): the amended tangent theorem instantiated at
`geo_sphere(2, 0)`. -/

theorem geo_sphere_tangent_unnormalized_witness :
    Mesh.geo_sphere 2 0 = some geoMesh20 ∧
    ∀ v ∈ geoMesh20.vertices, v.tangent =
      ⟨-2 * Real.sin (phiOfPos 2 v.position) * Real.sin (thetaOfPos v.position), 0,
        2 * Real.sin (phiOfPos 2 v.position) * Real.cos (thetaOfPos v.position)⟩ :=
  ⟨geo_sphere_two_zero,
   geo_sphere_tangent_unnormalized 2 0 geoMesh20 geo_sphere_two_zero⟩

/-- C3: one `subdivide` pass over a mesh with in-range indices processes
exactly the `indices.len()/3` triangles present at entry: it appends, per
original triangle `j`, the midpoints `mid(v0,v1), mid(v1,v2), mid(v0,v2)`
(`midBlock`, no deduplication at shared edges), rewrites slot `j`'s triple in
place to `(v0, m0, m2)` (`rewBlock`), and appends the triples
`(m0,v1,m1), (m0,m1,m2), (m2,m1,v2)` (`appBlock`), never revisiting appended
triangles. -/

theorem subdivide_characterization (m : Mesh ℝ)
    (hval : ∀ k ∈ m.indices, k < m.vertices.length) :
    Mesh.subdivide m = some
      { vertices := m.vertices ++
          (List.range (m.indices.length / 3)).flatMap (midBlock m)
        indices := (List.range (m.indices.length / 3)).flatMap (rewBlock m) ++
          m.indices.drop (3 * (m.indices.length / 3)) ++
          (List.range (m.indices.length / 3)).flatMap (appBlock m) } :=
  subdivide_eq_spec m hval

/-- C3 (witness): the characterization applied to the concrete one-triangle
mesh `wMesh`. -/

theorem subdivide_characterization_witness :
    (∀ k ∈ wMesh.indices, k < wMesh.vertices.length) ∧
    Mesh.subdivide wMesh = some
      { vertices := wMesh.vertices ++
          (List.range (wMesh.indices.length / 3)).flatMap (midBlock wMesh)
        indices := (List.range (wMesh.indices.length / 3)).flatMap (rewBlock wMesh) ++
          wMesh.indices.drop (3 * (wMesh.indices.length / 3)) ++
          (List.range (wMesh.indices.length / 3)).flatMap (appBlock wMesh) } :=
  ⟨wMesh_valid, subdivide_characterization wMesh wMesh_valid⟩

/-- C4: `subdivide` on a mesh with `T` triangles (indices length `3T`, all in
range of the `V` vertices) yields exactly `4T` triangles and `V + 3T`
vertices. -/

theorem subdivide_counts (m : Mesh ℝ) (T : ℕ)
    (hT : m.indices.length = 3 * T)
    (hval : ∀ k ∈ m.indices, k < m.vertices.length) :
    ∃ m', Mesh.subdivide m = some m' ∧
      m'.indices.length = 3 * (4 * T) ∧
      m'.vertices.length = m.vertices.length + 3 * T := by
  refine ⟨subdivideSpec m, subdivide_eq_spec m hval, ?_, ?_⟩
  · rw [subdivideSpec_indices_length, hT]
    omega
  · rw [subdivideSpec_vertices_length, hT]
    omega

/-- C4 (witness): the count theorem at the concrete one-triangle mesh. -/

theorem subdivide_counts_witness :
    (wMesh.indices.length = 3 * 1 ∧ ∀ k ∈ wMesh.indices, k < wMesh.vertices.length) ∧
    ∃ m', Mesh.subdivide wMesh = some m' ∧
      m'.indices.length = 3 * (4 * 1) ∧
      m'.vertices.length = wMesh.vertices.length + 3 * 1 :=
  ⟨⟨rfl, wMesh_valid⟩, subdivide_counts wMesh 1 rfl wMesh_valid⟩

/-- C5: every mesh produced by `brick`, `sphere` (with `slices ≥ 3`,
`stacks ≥ 2`) or `geo_sphere` (positive dimensions/radius), and every mesh
obtained from it by any number of further `subdivide` calls, satisfies the §3
invariant: indices length a multiple of 3 and every index below the vertex
count. -/

theorem generators_meshInv :
    (∀ (w h d : ℝ), 0 < w → 0 < h → 0 < d → ∀ s n : ℕ,
      ∃ m, (Mesh.brick w h d s).bind (iterSubdivide n) = some m ∧ MeshInv m) ∧
    (∀ (r : ℝ) (slice stack : ℕ), 3 ≤ slice → 2 ≤ stack → ∀ n : ℕ,
      ∃ m, iterSubdivide n (Mesh.sphere r slice stack) = some m ∧ MeshInv m) ∧
    (∀ (r : ℝ), 0 < r → ∀ s n : ℕ,
      ∃ m, (Mesh.geo_sphere r s).bind (iterSubdivide n) = some m ∧ MeshInv m) := by
  refine ⟨?_, ?_, ?_⟩
  · intro w h d _ _ _ s n
    obtain ⟨m1, h1, hi1⟩ := iterSubdivide_inv s (brickBase w h d) (brickBase_meshInv w h d)
    obtain ⟨m2, h2, hi2⟩ := iterSubdivide_inv n m1 hi1
    refine ⟨m2, ?_, hi2⟩
    rw [Mesh.brick, h1, Option.some_bind, h2]
  · intro r slice stack hsl hst n
    exact iterSubdivide_inv n _ (sphere_meshInv r slice stack hsl hst)
  · intro r _ s n
    obtain ⟨mq, hmq, hinv⟩ := geoInv_iterSubdivide s icoMesh icoMesh_geoInv
    obtain ⟨m2, h2, hi2⟩ := iterSubdivide_inv n _
      (meshInv_mapped mq (fun v => postProcess r (qVertex v)) hinv.1)
    refine ⟨m2, ?_, hi2⟩
    rw [geo_sphere_eq r s hmq, Option.some_bind, h2]

/-- C5 (witness): the invariant theorem at `brick(2,2,2,0)`,
`sphere(1,8,4)` and `geo_sphere(2,0)` with no further subdivision. -/

theorem generators_meshInv_witness :
    ((0:ℝ) < 2 ∧ (3:ℕ) ≤ 8 ∧ (2:ℕ) ≤ 4) ∧
    (∃ m, (Mesh.brick (2:ℝ) 2 2 0).bind (iterSubdivide 0) = some m ∧ MeshInv m) ∧
    (∃ m, iterSubdivide 0 (Mesh.sphere 1 8 4) = some m ∧ MeshInv m) ∧
    (∃ m, (Mesh.geo_sphere 2 0).bind (iterSubdivide 0) = some m ∧ MeshInv m) :=
  ⟨⟨by norm_num, by norm_num, by norm_num⟩,
   generators_meshInv.1 2 2 2 (by norm_num) (by norm_num) (by norm_num) 0 0,
   generators_meshInv.2.1 1 8 4 (by norm_num) (by norm_num) 0,
   generators_meshInv.2.2 2 (by norm_num) 0 0⟩

/-- C6: for `r > 0` and any subdivision count `n`, `geo_sphere(r, n)`
succeeds and every output vertex position has magnitude exactly `r` (the
post-process sets `normal = normalize(position)` and
`position = normal · r`); moreover `geo_sphere(r, 0)` has exactly 12
vertices and 60 indices, i.e. 20 triangles. -/

theorem geo_sphere_radius_and_base (r : ℝ) (n : ℕ) (hr : 0 < r) :
    (∃ m, Mesh.geo_sphere r n = some m ∧
      ∀ v ∈ m.vertices, magnitude3 v.position = r) ∧
    (∃ m0, Mesh.geo_sphere r 0 = some m0 ∧
      m0.vertices.length = 12 ∧ m0.indices.length = 60 ∧
      m0.indices.length / 3 = 20) := by
  refine ⟨geo_sphere_magnitude r hr n, ?_⟩
  refine ⟨_, geo_sphere_eq r 0 rfl, ?_, ?_, ?_⟩
  · show (icoMesh.vertices.map fun v => postProcess r (qVertex v)).length = 12
    rw [List.length_map]
    rfl
  · rfl
  · show icoMesh.indices.length / 3 = 20
    have h60 : icoMesh.indices.length = 60 := rfl
    rw [h60]

/-- C6 (witness): the radius/count theorem at `geo_sphere(2, 0)`. -/

theorem geo_sphere_radius_and_base_witness :
    (0:ℝ) < 2 ∧
    ((∃ m, Mesh.geo_sphere 2 0 = some m ∧
      ∀ v ∈ m.vertices, magnitude3 v.position = 2) ∧
    (∃ m0, Mesh.geo_sphere 2 0 = some m0 ∧
      m0.vertices.length = 12 ∧ m0.indices.length = 60 ∧
      m0.indices.length / 3 = 20)) :=
  ⟨by norm_num, geo_sphere_radius_and_base 2 0 (by norm_num)⟩

/-- C7: `brick(w,h,d,0)` is the unsubdivided box with exactly 24 vertices
and 36 indices; increasing the subdivision parameter by one composes exactly
one more `subdivide` pass; and `brick(2,2,2,1)` has 60 vertices and 144
indices (48 triangles). -/

theorem brick_counts :
    (∀ (w h d : ℝ), 0 < w → 0 < h → 0 < d →
      Mesh.brick w h d 0 = some (brickBase w h d) ∧
      (brickBase w h d).vertices.length = 24 ∧
      (brickBase w h d).indices.length = 36) ∧
    (∀ (w h d : ℝ) (s : ℕ),
      Mesh.brick w h d (s + 1) = (Mesh.brick w h d s).bind Mesh.subdivide) ∧
    (∃ m, Mesh.brick (2:ℝ) 2 2 1 = some m ∧
      m.vertices.length = 60 ∧ m.indices.length = 144) := by
  refine ⟨?_, ?_, ?_⟩
  · intro w h d _ _ _
    exact ⟨rfl, rfl, rfl⟩
  · intro w h d s
    exact iterSubdivide_succ_right s (brickBase w h d)
  · have hval := (brickBase_meshInv (2:ℝ) 2 2).2
    refine ⟨subdivideSpec (brickBase (2:ℝ) 2 2), ?_, ?_, ?_⟩
    · show iterSubdivide 1 (brickBase (2:ℝ) 2 2) = _
      rw [iterSubdivide, subdivide_eq_spec _ hval, Option.some_bind]
      rfl
    · rw [subdivideSpec_vertices_length]
      have h24 : (brickBase (2:ℝ) 2 2).vertices.length = 24 := rfl
      have h36 : (brickBase (2:ℝ) 2 2).indices.length = 36 := rfl
      rw [h24, h36]
    · rw [subdivideSpec_indices_length]
      have h36 : (brickBase (2:ℝ) 2 2).indices.length = 36 := rfl
      rw [h36]

/-- C7 (witness): the brick theorem at `brick(2,2,2,0)`. -/

theorem brick_counts_witness :
    (0:ℝ) < 2 ∧
    (Mesh.brick (2:ℝ) 2 2 0 = some (brickBase (2:ℝ) 2 2) ∧
      (brickBase (2:ℝ) 2 2).vertices.length = 24 ∧
      (brickBase (2:ℝ) 2 2).indices.length = 36) :=
  ⟨by norm_num, brick_counts.1 2 2 2 (by norm_num) (by norm_num) (by norm_num)⟩

/-- C8: `get_middle` is the componentwise arithmetic mean of every attribute
field (position, normal, tangent, texture coordinate) with no
renormalization, and it is exactly commutative. -/

theorem get_middle_mean_comm (a b : Vertex ℝ) :
    Vertex.get_middle a b = Vertex.get_middle b a ∧
    (Vertex.get_middle a b).position.x = (a.position.x + b.position.x) / 2 ∧
    (Vertex.get_middle a b).position.y = (a.position.y + b.position.y) / 2 ∧
    (Vertex.get_middle a b).position.z = (a.position.z + b.position.z) / 2 ∧
    (Vertex.get_middle a b).normal.x = (a.normal.x + b.normal.x) / 2 ∧
    (Vertex.get_middle a b).normal.y = (a.normal.y + b.normal.y) / 2 ∧
    (Vertex.get_middle a b).normal.z = (a.normal.z + b.normal.z) / 2 ∧
    (Vertex.get_middle a b).tangent.x = (a.tangent.x + b.tangent.x) / 2 ∧
    (Vertex.get_middle a b).tangent.y = (a.tangent.y + b.tangent.y) / 2 ∧
    (Vertex.get_middle a b).tangent.z = (a.tangent.z + b.tangent.z) / 2 ∧
    (Vertex.get_middle a b).tex_coord.x = (a.tex_coord.x + b.tex_coord.x) / 2 ∧
    (Vertex.get_middle a b).tex_coord.y = (a.tex_coord.y + b.tex_coord.y) / 2 := by
  refine ⟨?_, rfl, rfl, rfl, rfl, rfl, rfl, rfl, rfl, rfl, rfl, rfl⟩
  show Vertex.mk _ _ _ _ = Vertex.mk _ _ _ _
  rw [Vec3_add_comm a.position, Vec3_add_comm a.normal, Vec3_add_comm a.tangent,
    Vec2_add_comm a.tex_coord]

/-- C9: under the §3 invariant the `vertices.get(...).unwrap()` calls inside
`subdivide` cannot hit their error branch: `subdivide` always returns a
mesh (`some`), never the panic (`none`). -/

theorem subdivide_no_panic (m : Mesh ℝ) (h : MeshInv m) :
    ∃ m', Mesh.subdivide m = some m' :=
  ⟨subdivideSpec m, subdivide_eq_spec m h.2⟩

/-- C9 (witness): no panic on the concrete one-triangle mesh. -/

theorem subdivide_no_panic_witness :
    MeshInv wMesh ∧ ∃ m', Mesh.subdivide wMesh = some m' :=
  ⟨wMesh_meshInv, subdivide_no_panic wMesh wMesh_meshInv⟩

/-- C10: `subdivide` never modifies a pre-existing vertex — the pre-call
vertex prefix survives unchanged (new vertices are appended after it) — and
within each original triangle's index triple the first entry keeps its
pre-call value. -/

theorem subdivide_frame (m : Mesh ℝ)
    (hval : ∀ k ∈ m.indices, k < m.vertices.length) :
    ∃ m', Mesh.subdivide m = some m' ∧
      (∀ i < m.vertices.length, m'.vertices[i]? = m.vertices[i]?) ∧
      m'.vertices.take m.vertices.length = m.vertices ∧
      (∀ j < m.indices.length / 3, idxAt m' (3 * j) = idxAt m (3 * j)) := by
  refine ⟨subdivideSpec m, subdivide_eq_spec m hval, ?_, ?_, ?_⟩
  · intro i hi
    exact subdivideSpec_vertices_prefix m hi
  · show ((stateAt m (m.indices.length / 3)).vertices).take m.vertices.length = m.vertices
    rw [stateAt]
    exact List.take_left _ _
  · intro j hj
    exact subdivideSpec_indices_head m hj

/-- C10 (witness): the frame theorem on the concrete one-triangle mesh. -/

theorem subdivide_frame_witness :
    (∀ k ∈ wMesh.indices, k < wMesh.vertices.length) ∧
    ∃ m', Mesh.subdivide wMesh = some m' ∧
      (∀ i < wMesh.vertices.length, m'.vertices[i]? = wMesh.vertices[i]?) ∧
      m'.vertices.take wMesh.vertices.length = wMesh.vertices ∧
      (∀ j < wMesh.indices.length / 3, idxAt m' (3 * j) = idxAt wMesh (3 * j)) :=
  ⟨wMesh_valid, subdivide_frame wMesh wMesh_valid⟩
